import Mathlib

/-!
Verification of the ckeditor5-dev development utilities.

This file gives a shallow embedding of:

* `parseRepositoryUrl` from `packages/ckeditor5-dev-utils/lib/git.js`;
* the `CKEditorWebpackPlugin` constructor and `apply` method from
  `packages/ckeditor5-dev-webpack-plugin/lib/index.js`;
* the commit transform used by the changelog writer
  (`lib/release-tools/changelog/writer-options`), whose implementation is
  exercised by `tests/release-tools/changelog/transformcommit.js`.
  That implementation file is not part of the sources at hand, so the
  transform is modelled from the specification's process description,
  with the concrete strings (log-line format, error message, colors)
  taken from its test file.

JavaScript strings are embedded as `String` / `List Char`; absent (`null`
or `undefined`) fields as `Option`; a thrown exception as `Except.error`.
-/

/-! ## Character classes used by the GitHub URL regular expression

The regex in `git.js` is
`^((?:git@|(?:https?|git):\/\/)github\.com(?:\/|:))?(([\w-]+)\/([\w-]+(?:\.git)?))(?:#([\w-\/.]+))?$`.
`\w` in a JavaScript regex is `[A-Za-z0-9_]` (ASCII only), matching
`Char.isAlphanum` plus underscore here. -/

/-- A character matched by `[\w-]` in the JavaScript regex. -/
def wordDash (c : Char) : Bool :=
  c.isAlphanum || c == '_' || c == '-'

/-- A character matched by `[\w-\/.]` (the branch part of the regex). -/
def branchChar (c : Char) : Bool :=
  wordDash c || c == '/' || c == '.'

/-- A nonempty run of `[\w-]` characters, i.e. a string matched by `[\w-]+`. -/
def validWord (cs : List Char) : Bool :=
  !cs.isEmpty && cs.all wordDash

/-- Splits a character list at every occurrence of the separator character,
matching the behaviour of JavaScript's `String.prototype.split` with a
one-character separator (and Lean's `String.splitOn`): the result is the
list of (possibly empty) fragments between separators. -/
def splitOnChar (sep : Char) : List Char → List (List Char)
  | [] => [[]]
  | c :: rest =>
    if c == sep then [] :: splitOnChar sep rest
    else
      match splitOnChar sep rest with
      | [] => [[c]]
      | h :: t => (c :: h) :: t

/-- The eight literal strings generated by the optional server group
`(?:git@|(?:https?|git):\/\/)github\.com(?:\/|:)` of the regex. No one of
them is a prefix of another, so which of them (if any) starts a given URL
is unambiguous. -/
def serverPrefixes : List String :=
  [ "git@github.com:", "git@github.com/",
    "https://github.com:", "https://github.com/",
    "http://github.com:", "http://github.com/",
    "git://github.com:", "git://github.com/" ]

/-- The record returned by `parseRepositoryUrl` in `git.js`:
`{ server, repository, branch, user, name }`. -/
structure UrlInfo where
  server : String
  repository : String
  branch : String
  user : String
  name : String
deriving DecidableEq, Repr

/-- The name group `[\w-]+(?:\.git)?` of the regex, together with the
statement `name = /\.git$/.test( name ) ? name.slice( 0, -4 ) : name;` of
`git.js`: accepts the raw matched name and returns the name with a
trailing `.git` stripped. Since `.` is outside `[\w-]`, the raw name ends
in `.git` exactly when the optional `(?:\.git)?` group matched. -/
def parseName (n : List Char) : Option (List Char) :=
  if ".git".toList.isSuffixOf n && validWord (n.take (n.length - 4)) then
    some (n.take (n.length - 4))
  else if validWord n then
    some n
  else none

/-- The repository group `([\w-]+)\/([\w-]+(?:\.git)?)` of the regex:
neither side of the `/` may contain `/`, so the part before the optional
`#branch` suffix must split at `/` into exactly a user and a name.
Returns `(user, raw name, stripped name)`. -/
def parseRepoPart (r : List Char) : Option (List Char × List Char × List Char) :=
  match splitOnChar '/' r with
  | [u, n] =>
    if validWord u then (parseName n).map (fun st => (u, n, st))
    else none
  | _ => none

/-- The optional branch suffix `(?:#([\w-\/.]+))?$` of the regex: `#` is
outside every other character class of the tail, so a matching tail
contains at most one `#`, and what follows it must be a nonempty run of
branch characters. Returns the part before the `#` and the branch. -/
def parseBranchPart (s : List Char) : Option (List Char × Option (List Char)) :=
  match splitOnChar '#' s with
  | [r] => some (r, none)
  | [r, b] =>
    if !b.isEmpty && b.all branchChar then some (r, some b)
    else none
  | _ => none

/-- The tail of `parseRepositoryUrl` from `git.js`, given the matched
server prefix (if any) and the remaining characters. The anchored regex
is embedded as a deterministic parser: the eight possible server
prefixes contain `@` or `:`, characters no suffix of the pattern can
match, so trying the prefix first (as the greedy optional group does) is
equivalent to the regex's backtracking search. Defaults are as in the
source: `server = match[ 1 ] || 'git@github.com:'` and
`branch = match[ 5 ] || 'master'`. -/
def buildUrlInfo (serverOpt : Option String) (s : List Char) : Option UrlInfo :=
  match parseBranchPart s with
  | none => none
  | some (repoPart, branchOpt) =>
    match parseRepoPart repoPart with
    | none => none
    | some (u, rawName, st) =>
      some { server := serverOpt.getD "git@github.com:"
             repository := (u ++ '/' :: rawName).asString
             branch := (branchOpt.map List.asString).getD "master"
             user := u.asString
             name := st.asString }

/-- `parseRepositoryUrl` from `git.js`: strips the server prefix when one
is present and hands the tail to `buildUrlInfo`. -/
def parseRepositoryUrl (url : String) : Option UrlInfo :=
  let cs := url.toList
  match serverPrefixes.find? (fun p => p.toList.isPrefixOf cs) with
  | some p => buildUrlInfo (some p) (cs.drop p.length)
  | none => buildUrlInfo none cs

/-! Recognizer for the claim "the string matches the GitHub-URL pattern",
written as plain boolean checks, to be compared with `parseRepositoryUrl`. -/

/-- Whether a string matches `([\w-]+)\/([\w-]+(?:\.git)?)`. -/
def matchesRepo (r : List Char) : Bool :=
  match splitOnChar '/' r with
  | [u, n] =>
    validWord u &&
      ((".git".toList.isSuffixOf n && validWord (n.take (n.length - 4))) || validWord n)
  | _ => false

/-- Whether a string matches the regex tail `repo(?:#([\w-\/.]+))?$`. -/
def matchesTail (s : List Char) : Bool :=
  match splitOnChar '#' s with
  | [r] => matchesRepo r
  | [r, b] => matchesRepo r && (!b.isEmpty && b.all branchChar)
  | _ => false

/-- Whether a string matches the full anchored GitHub-URL regex of
`git.js`. -/
def matchesGitHubUrl (url : String) : Bool :=
  let cs := url.toList
  let rest :=
    match serverPrefixes.find? (fun p => p.toList.isPrefixOf cs) with
    | some p => cs.drop p.length
    | none => cs
  matchesTail rest

/-! ## CKEditorWebpackPlugin (`packages/ckeditor5-dev-webpack-plugin/lib/index.js`) -/

/-- The `additionalLanguages` option may be a string or an array of
language codes (`Array.<String> | 'all'`). -/
inductive AddLangsValue where
  | str (s : String)
  | arr (ls : List String)
deriving DecidableEq, Repr

/-- The options object a user passes to the plugin constructor; every
field may be absent. -/
structure WebpackPluginOptions where
  language : Option String
  additionalLanguages : Option AddLangsValue
  outputDirectory : Option String
  strict : Option Bool
  verbose : Option Bool
deriving DecidableEq, Repr

/-- `this.options` after the constructor ran: `outputDirectory` has been
defaulted, `strict` and `verbose` coerced to booleans. -/
structure ResolvedPluginOptions where
  language : Option String
  additionalLanguages : Option AddLangsValue
  outputDirectory : String
  strict : Bool
  verbose : Bool
deriving DecidableEq, Repr

/-- JavaScript `a || b` for an optional string `a`: `undefined` and the
empty string are falsy. -/
def jsStrOrDefault (o : Option String) (d : String) : String :=
  match o with
  | some s => if s = "" then d else s
  | none => d

/-- Whether `!x` holds in JavaScript for an optional string `x`. -/
def jsStrFalsy (o : Option String) : Bool :=
  match o with
  | some s => s == ""
  | none => true

/-- The `CKEditorWebpackPlugin` constructor: copies `language` and
`additionalLanguages`, applies `options.outputDirectory || 'translations'`
and coerces `strict` and `verbose` with `!!`. -/
def mkCKEditorWebpackPlugin (options : WebpackPluginOptions) : ResolvedPluginOptions :=
  { language := options.language
    additionalLanguages := options.additionalLanguages
    outputDirectory := jsStrOrDefault options.outputDirectory "translations"
    strict := options.strict.getD false
    verbose := options.verbose.getD false }

/-- The translation service `apply` constructs before calling
`serveTranslations`. -/
inductive TranslationService where
  | single (language : String)
  | multiple (mainLanguage : String) (compileAllLanguages : Bool)
      (additionalLanguages : List String)
deriving DecidableEq, Repr

/-- The observable outcome of `CKEditorWebpackPlugin.apply( compiler )`:
either it warned about the missing `language` option and returned without
touching the compiler, or it threw on a bad `additionalLanguages` string,
or it reached `serveTranslations` with the service it constructed (and
possibly warned that `outputDirectory` is ignored for one language). -/
inductive ApplyOutcome where
  | warnedMissingLanguage
  | errorBadAdditionalLanguages
  | served (warnedIgnoredOutputDirectory : Bool) (ts : TranslationService)
deriving DecidableEq, Repr

/-- `CKEditorWebpackPlugin.apply` from `index.js`, with the calls into
`console.warn`, `throw` and `serveTranslations` reified as the
`ApplyOutcome` value. -/
def applyCKEditorWebpackPlugin (o : ResolvedPluginOptions) : ApplyOutcome :=
  if jsStrFalsy o.language then .warnedMissingLanguage
  else
    let language := o.language.getD ""
    match o.additionalLanguages with
    | some (.str s) =>
      if s ≠ "all" then .errorBadAdditionalLanguages
      else .served false (.multiple language true [])
    | some (.arr ls) => .served false (.multiple language false ls)
    | none =>
      .served (o.outputDirectory ≠ "translations" && o.verbose)
        (.single language)

/-! ## The commit transform of the changelog writer

Modelled from the spec: the implementation module
`lib/release-tools/changelog/writer-options` is not among the sources;
only its test file `tests/release-tools/changelog/transformcommit.js` is.
The definitions below follow the specification's data model (section 3)
and processing steps (section 4.1), with the concrete configured type
lists, the type mapping, the log-line format, the ANSI color codes and
the error message taken from the expectations of the test file. -/

/-- A `{ title, text }` entry of a commit's `notes`. -/
structure Note where
  title : String
  text : String
deriving DecidableEq, Repr

/-- An `{ action, issue, raw, prefix }` entry of a commit's `references`
(`prefix` is a reserved word in Lean, hence `refPrefix`). -/
structure Reference where
  action : String
  issue : String
  raw : String
  refPrefix : String
deriving DecidableEq, Repr

/-- A parsed commit record as handed to the transform. -/
structure Commit where
  hash : String
  header : String
  type : Option String
  subject : Option String
  body : Option String
  footer : Option String
  notes : List Note
  references : List Reference
deriving DecidableEq, Repr

/-- The slice of a package descriptor the transform reads: its `name`
and its optional `bugs` issue-tracker URL. -/
structure PackageJson where
  name : String
  bugs : Option String
deriving DecidableEq, Repr

/-- Modelled from the spec: the externally configured "public" commit
types, whose commits are INCLUDED in the changelog (spec examples "Fix",
"Feature", "Other"; "Features" is the mapped label the merge-commit test
expects to be included). -/
def publicTypes : List String := ["Fix", "Feature", "Features", "Other"]

/-- Modelled from the spec: the externally configured "internal-only"
commit types, whose commits are SKIPPED (spec examples "Docs",
"Internal", "Tests"). -/
def internalTypes : List String := ["Docs", "Internal", "Tests"]

/-- All recognized commit types. -/
def knownTypes : List String := publicTypes ++ internalTypes

/-- Modelled from the spec: the mapping applied to a promoted embedded
type ("the type possibly mapped, e.g. `Feature` to `Features`"). -/
def typeMappings : List (String × String) := [("Feature", "Features")]

/-- Applies `typeMappings`, leaving unmapped types unchanged. -/
def mapType (t : String) : String :=
  (typeMappings.lookup t).getD t

/-- The classification outcome of a commit. -/
inductive Outcome where
  | included
  | skipped
  | invalid
deriving DecidableEq, Repr

/-- Modelled from the spec, step 4: classification maps `type` to
INCLUDED when it is a configured public type, SKIPPED when it is a
configured internal-only type, and INVALID when it is null or
unrecognized. -/
def classify (t : Option String) : Outcome :=
  match t with
  | none => .invalid
  | some ty =>
    if ty ∈ publicTypes then .included
    else if ty ∈ internalTypes then .skipped
    else .invalid

/-- Modelled from the spec, step 1: a note title of "BREAKING CHANGE" is
rewritten to "BREAKING CHANGES"; other titles are untouched. -/
def normalizeTitle (t : String) : String :=
  if t = "BREAKING CHANGE" then "BREAKING CHANGES" else t

/-- Step 1 applied to a whole commit. -/
def normalizeNotes (c : Commit) : Commit :=
  { c with notes := c.notes.map (fun n => { n with title := normalizeTitle n.title }) }

/-- A character allowed in a `@<username>` mention. -/
def userChar (c : Char) : Bool :=
  c.isAlphanum || c == '_' || c == '-'

/-- Modelled from the spec, step 3: one step budget per consumed
character. The scan is a single left-to-right pass that replaces each
`#<digits>` token with `[#<digits>](<bugsUrl>/<digits>)` and each
`@<username>` token with `[@<username>](https://github.com/<username>)`,
leaving every other character unchanged. Replacement output is never
rescanned, so each token is rewritten exactly once. The `fuel` argument
makes the recursion structural (every step consumes at least one
character, so `fuel = cs.length` never runs out). -/
def linkCharsFuel (bugs : List Char) : Nat → List Char → List Char
  | _, [] => []
  | 0, cs => cs
  | fuel + 1, '#' :: rest =>
    let ds := rest.takeWhile Char.isDigit
    if ds.isEmpty then '#' :: linkCharsFuel bugs fuel rest
    else
      "[#".toList ++ ds ++ "](".toList ++ bugs ++ '/' :: ds ++ ")".toList ++
        linkCharsFuel bugs fuel (rest.drop ds.length)
  | fuel + 1, '@' :: rest =>
    let ws := rest.takeWhile userChar
    if ws.isEmpty then '@' :: linkCharsFuel bugs fuel rest
    else
      "[@".toList ++ ws ++ "](https://github.com/".toList ++ ws ++ ")".toList ++
        linkCharsFuel bugs fuel (rest.drop ws.length)
  | fuel + 1, c :: rest => c :: linkCharsFuel bugs fuel rest

/-- The reference-linking scan of step 3, with its full step budget. -/
def linkChars (bugs : List Char) (cs : List Char) : List Char :=
  linkCharsFuel bugs cs.length cs

/-- Step 3 on a string field. -/
def linkReferences (bugs : String) (s : String) : String :=
  (linkChars bugs.toList s.toList).asString

/-- Step 3 applied to a whole commit: the `subject` and every note's
`text` are rewritten; nothing else is. -/
def linkCommit (bugs : String) (c : Commit) : Commit :=
  { c with
    subject := c.subject.map (linkReferences bugs)
    notes := c.notes.map (fun n => { n with text := linkReferences bugs n.text }) }

/-- The lines of a multi-line string (split at every newline). -/
def toLines (b : String) : List String :=
  (splitOnChar '\n' b.toList).map List.asString

/-- The first line of a multi-line string. -/
def firstLine (b : String) : String :=
  (toLines b).headD ""

/-- All lines after the first. -/
def restLines (b : String) : List String :=
  (toLines b).tail

/-- Drops empty lines from both ends of a line list. -/
def trimBlankEdges (ls : List String) : List String :=
  ((ls.dropWhile (· == "")).reverse.dropWhile (· == "")).reverse

/-- Modelled from the spec, step 2: the remaining description of a merge
commit is "indented as a quoted block" — the test expects each kept line
prefixed with two spaces, with leading and trailing blank lines removed. -/
def quoteBlock (ls : List String) : String :=
  String.intercalate "\n" ((trimBlankEdges ls).map (fun l => "  " ++ l))

/-- Modelled from the spec, step 2: whether `header` matches the
merge-commit pattern (e.g. "Merge pull request #N from ..."). -/
def isMergeHeader (h : String) : Bool :=
  "Merge ".toList.isPrefixOf h.toList

/-- Splits an embedded conventional-commit line `"<Type>: <Subject>"` at
the first `": "`. -/
def splitTypeSubject : List Char → Option (List Char × List Char)
  | [] => none
  | ':' :: ' ' :: rest => some ([], rest)
  | c :: rest =>
    (splitTypeSubject rest).map (fun p => (c :: p.1, p.2))

/-- Modelled from the spec, step 2: recognizes an embedded
conventional-commit line, i.e. `"<Type>: <Subject>"` with `<Type>` a
recognized commit type. -/
def parseEmbeddedLine (line : String) : Option (String × String) :=
  match splitTypeSubject line.toList with
  | none => none
  | some (t, s) =>
    if t.asString ∈ knownTypes then some (t.asString, s.asString) else none

/-- Modelled from the spec, step 2: if `header` matches the merge-commit
pattern and the first line of `body` is an embedded conventional-commit
line, promote its (mapped) type and its subject to the commit's own
fields and replace `body` by the remaining lines as a quoted block;
otherwise leave the commit unchanged. -/
def unwrapMergeCommit (c : Commit) : Commit :=
  if isMergeHeader c.header then
    match c.body with
    | none => c
    | some b =>
      match parseEmbeddedLine (firstLine b) with
      | none => c
      | some (t, s) =>
        { c with
          type := some (mapType t)
          subject := some s
          body := some (quoteBlock (restLines b)) }
  else c

/-- The ANSI escape for green, used for INCLUDED. -/
def colorGreen : String := "\x1b[32m"

/-- The ANSI escape for gray, used for SKIPPED. -/
def colorGray : String := "\x1b[90m"

/-- The ANSI escape for red, used for INVALID. -/
def colorRed : String := "\x1b[31m"

/-- The ANSI reset escape. -/
def colorReset : String := "\x1b[0m"

/-- The displayed name of an outcome. -/
def outcomeLabel : Outcome → String
  | .included => "INCLUDED"
  | .skipped => "SKIPPED"
  | .invalid => "INVALID"

/-- The color in which an outcome is rendered. -/
def outcomeColor : Outcome → String
  | .included => colorGreen
  | .skipped => colorGray
  | .invalid => colorRed

/-- Modelled from the spec, step 5: the single summary line
`* <short-hash> "<header>" <COLOR><OUTCOME><RESET>`, built from the first
seven characters of the commit's `hash` and its original `header`. -/
def logLine (c : Commit) (o : Outcome) : String :=
  "* " ++ (c.hash.toList.take 7).asString ++ " \"" ++ c.header ++ "\" " ++
    outcomeColor o ++ outcomeLabel o ++ colorReset

/-- Everything a call of the transform produces: the mutated commit, the
info-level lines it logged, the verbosity the logger was configured with,
and the classification outcome (whose being INCLUDED is the signal to
keep the commit, spec step 6). -/
structure TransformResult where
  commit : Commit
  log : List String
  verbosity : String
  outcome : Outcome
deriving DecidableEq, Repr

/-- The configuration-error message thrown when the package descriptor
has no `bugs` field (message as asserted by the test file). -/
def missingBugsMessage (pkg : PackageJson) : String :=
  "The package.json for \"" ++ pkg.name ++ "\" must contain the \"bugs\" property."

/-- Modelled from the spec: the commit transform
(`classify(commit, displayLogs)` of section 4.1). It resolves the
issue-tracker URL first, throwing the configuration error before any
mutation or logging when the `bugs` field is absent; otherwise it
normalizes note titles, unwraps a merge commit, rewrites issue and
mention references, classifies the commit by its type, and emits exactly
one summary line built from the original hash and header. `displayLogs =
false` only lowers the logger to "error" verbosity. -/
def transformCommit (pkg : PackageJson) (c : Commit) (displayLogs : Bool) :
    Except String TransformResult :=
  match pkg.bugs with
  | none => .error (missingBugsMessage pkg)
  | some bugs =>
    let c2 := unwrapMergeCommit (normalizeNotes c)
    let c3 := linkCommit bugs c2
    let o := classify c3.type
    .ok { commit := c3
          log := [logLine c o]
          verbosity := if displayLogs then "info" else "error"
          outcome := o }

/-! ## Token-level description of reference linking (for claim C2)

The claim describes step 3 token by token: every `#<digits>` token and
every `@<username>` token is rewritten exactly once, all other characters
are kept. `refTokenize` decomposes a string into those tokens and
`renderRefToken` is the per-token rewriting. -/

/-- A token of the reference-linking scan: a `#<digits>` issue token, a
`@<username>` mention token, or a single untouched character. -/
inductive RefToken where
  | issue (digits : List Char)
  | mention (user : List Char)
  | plain (c : Char)
deriving DecidableEq, Repr

/-- Decomposes a string into reference-linking tokens: a `#` followed by
at least one digit opens an issue token consuming the maximal digit run,
a `@` followed by at least one username character opens a mention token
consuming the maximal run, and any other character is a plain token. The
`fuel` argument mirrors `linkCharsFuel`; with `fuel = cs.length` it never
runs out. -/
def refTokenizeFuel : Nat → List Char → List RefToken
  | _, [] => []
  | 0, cs => cs.map .plain
  | fuel + 1, '#' :: rest =>
    let ds := rest.takeWhile Char.isDigit
    if ds.isEmpty then .plain '#' :: refTokenizeFuel fuel rest
    else .issue ds :: refTokenizeFuel fuel (rest.drop ds.length)
  | fuel + 1, '@' :: rest =>
    let ws := rest.takeWhile userChar
    if ws.isEmpty then .plain '@' :: refTokenizeFuel fuel rest
    else .mention ws :: refTokenizeFuel fuel (rest.drop ws.length)
  | fuel + 1, c :: rest => .plain c :: refTokenizeFuel fuel rest

/-- The token decomposition of a whole string. -/
def refTokenize (cs : List Char) : List RefToken :=
  refTokenizeFuel cs.length cs

/-- The rewriting of one token: an issue token becomes the markdown link
`[#<digits>](<bugsUrl>/<digits>)`, a mention token becomes
`[@<username>](https://github.com/<username>)`, and a plain character is
kept unchanged. -/
def renderRefToken (bugs : List Char) : RefToken → List Char
  | .issue ds => "[#".toList ++ ds ++ "](".toList ++ bugs ++ '/' :: ds ++ ")".toList
  | .mention ws => "[@".toList ++ ws ++ "](https://github.com/".toList ++ ws ++ ")".toList
  | .plain c => [c]

/-- The token-level rewriting of a whole string. -/
def renderRefTokens (bugs : List Char) (cs : List Char) : List Char :=
  ((refTokenize cs).map (renderRefToken bugs)).flatten

/-- Rendering a string of plain tokens gives the string back. -/
theorem renderRefTokens_plain (bugs : List Char) (cs : List Char) :
    (List.map (renderRefToken bugs ∘ RefToken.plain) cs).flatten = cs := by
  induction cs with
  | nil => rfl
  | cons c rest ih => simp [Function.comp, renderRefToken, ih]

/-- Step-budgeted version of the scan-tokenize correspondence: for every
budget, the scan is exactly the token-level rewriting (when the budget
runs out, both keep the remaining characters unchanged). -/
theorem linkCharsFuel_eq_render (bugs : List Char) (fuel : Nat) (cs : List Char) :
    linkCharsFuel bugs fuel cs =
      ((refTokenizeFuel fuel cs).map (renderRefToken bugs)).flatten := by
  induction fuel, cs using linkCharsFuel.induct bugs with
  | case1 => simp [linkCharsFuel, refTokenizeFuel]
  | case2 cs =>
    simp [linkCharsFuel, refTokenizeFuel, renderRefTokens_plain]
  | case3 fuel rest ds hds ih =>
    simp [linkCharsFuel, refTokenizeFuel, renderRefToken, hds, ih]
  | case4 fuel rest ds hds ih =>
    simp [linkCharsFuel, refTokenizeFuel, renderRefToken, hds, ih]
  | case5 fuel rest ws hws ih =>
    simp [linkCharsFuel, refTokenizeFuel, renderRefToken, hws, ih]
  | case6 fuel rest ws hws ih =>
    simp [linkCharsFuel, refTokenizeFuel, renderRefToken, hws, ih]
  | case7 fuel c rest h1 h2 ih =>
    simp [linkCharsFuel, refTokenizeFuel, renderRefToken, h1, h2, ih]

/-- The scan `linkChars` is exactly the token-level rewriting. -/
theorem linkChars_eq_renderRefTokens (bugs : List Char) (cs : List Char) :
    linkChars bugs cs = renderRefTokens bugs cs :=
  linkCharsFuel_eq_render bugs cs.length cs

/-! ## Structural lemmas about the transform pipeline -/

theorem normalizeNotes_hash (c : Commit) : (normalizeNotes c).hash = c.hash := rfl

theorem normalizeNotes_header (c : Commit) : (normalizeNotes c).header = c.header := rfl

theorem normalizeNotes_type (c : Commit) : (normalizeNotes c).type = c.type := rfl

theorem normalizeNotes_subject (c : Commit) : (normalizeNotes c).subject = c.subject := rfl

theorem normalizeNotes_body (c : Commit) : (normalizeNotes c).body = c.body := rfl

theorem unwrapMergeCommit_notes (c : Commit) :
    (unwrapMergeCommit c).notes = c.notes := by
  unfold unwrapMergeCommit
  split
  · split
    · rfl
    · split
      · rfl
      · rfl
  · rfl

theorem unwrapMergeCommit_header (c : Commit) :
    (unwrapMergeCommit c).header = c.header := by
  unfold unwrapMergeCommit
  split
  · split
    · rfl
    · split
      · rfl
      · rfl
  · rfl

theorem unwrapMergeCommit_of_not_merge (c : Commit) (h : isMergeHeader c.header = false) :
    unwrapMergeCommit c = c := by
  unfold unwrapMergeCommit
  simp [h]

theorem linkCommit_type (bugs : String) (c : Commit) :
    (linkCommit bugs c).type = c.type := rfl

theorem linkCommit_body (bugs : String) (c : Commit) :
    (linkCommit bugs c).body = c.body := rfl

theorem linkCommit_notes_titles (bugs : String) (c : Commit) :
    (linkCommit bugs c).notes.map Note.title = c.notes.map Note.title := by
  simp [linkCommit]

/-- With a resolved tracker URL the transform never fails and its result
is the composition of the three mutation steps, one log line built from
the original commit, and the classification of the post-unwrapping type. -/
theorem transformCommit_eq (pkg : PackageJson) (bugs : String) (c : Commit) (d : Bool)
    (h : pkg.bugs = some bugs) :
    transformCommit pkg c d = .ok
      { commit := linkCommit bugs (unwrapMergeCommit (normalizeNotes c))
        log := [logLine c (classify (unwrapMergeCommit (normalizeNotes c)).type)]
        verbosity := if d then "info" else "error"
        outcome := classify (unwrapMergeCommit (normalizeNotes c)).type } := by
  simp only [transformCommit, h, linkCommit_type]

/-! ## Concrete fixtures (from the test file) -/

/-- The stubbed package descriptor of the test file. -/
def pkgFixture : PackageJson :=
  { name := "ckeditor5-dev"
    bugs := some "https://github.com/ckeditor/ckeditor5-dev/issues" }

/-- A package descriptor without a `bugs` field. -/
def pkgNoBugs : PackageJson := { name := "foo", bugs := none }

/-- The valid "external" commit of the test file, with the two
breaking-change notes of the grouping test. -/
def fixCommit : Commit :=
  { hash := "684997d0eb2eca76b9e058fb1c3fa00b50059cdc"
    header := "Fix: Simple fix."
    type := some "Fix"
    subject := some "Simple fix."
    body := none
    footer := none
    notes := [ { title := "BREAKING CHANGE", text := "Note 1." },
               { title := "BREAKING CHANGES", text := "Note 2." } ]
    references := [] }

/-- The valid "internal" commit of the test file. -/
def docsCommit : Commit :=
  { hash := "684997d0eb2eca76b9e058fb1c3fa00b50059cdc"
    header := "Docs: README."
    type := some "Docs"
    subject := some "README."
    body := none
    footer := none
    notes := []
    references := [] }

/-- The invalid commit of the test file. -/
def invalidCommit : Commit :=
  { hash := "684997d0eb2eca76b9e058fb1c3fa00b50059cdc"
    header := "Invalid commit."
    type := none
    subject := none
    body := none
    footer := none
    notes := []
    references := [] }

/-- The issue-reference commit of the test file. -/
def issueCommit : Commit :=
  { hash := "76b9e058fb1c3fa00b50059cdc684997d0eb2eca"
    header := "Fix: Simple fix. Closes #2."
    type := some "Fix"
    subject := some "Simple fix. Closes #2"
    body := none
    footer := none
    notes := [ { title := "BREAKING CHANGES", text := "Some issue #1." } ]
    references := [] }

/-- The body of the merge commit of the test file. -/
def mergeBody : String :=
  String.intercalate "\n"
    [ "Feature: Introduced a brand new release tools with a new set of requirements. See #64.",
      "",
      "* Release task - rebuilt module for collecting dependencies to release.",
      "* Release task - a new version to release will be read from CHANGELOG file.",
      "* Changelog task - will not break if changelog does not exist.",
      "* Used `semver` package for bumping the version (instead of a custom module).",
      "" ]

/-- The merge commit of the test file (its footer and references do not
matter to the claims and are left empty). -/
def mergeCommit : Commit :=
  { hash := "dea35014ab610be0c2150343c6a8a68620cfe5ad"
    header := "Merge pull request #75 from ckeditor/t/64"
    type := none
    subject := none
    body := some mergeBody
    footer := none
    notes := [ { title := "BREAKING CHANGES", text := "Removed the `getoptions` module." } ]
    references := [] }


/-- Pointwise form of `linkChars_eq_renderRefTokens` on strings. -/
theorem linkReferences_eq_render (bugs s : String) :
    linkReferences bugs s = (renderRefTokens bugs.toList s.toList).asString := by
  simp [linkReferences, linkChars_eq_renderRefTokens]

/-- Evaluation of merge-commit unwrapping when the header matches and the
body carries an embedded conventional-commit line. -/
theorem unwrapMergeCommit_of_merge (c : Commit) (b t s : String)
    (hm : isMergeHeader c.header = true) (hb : c.body = some b)
    (hp : parseEmbeddedLine (firstLine b) = some (t, s)) :
    unwrapMergeCommit c =
      { c with
        type := some (mapType t)
        subject := some s
        body := some (quoteBlock (restLines b)) } := by
  unfold unwrapMergeCommit
  simp [hm, hb, hp]

/-! ## Claims about the commit transform -/

/-- Claim C1: for every call of the transform on a non-merge commit, the
classification outcome is determined by the commit's type: a configured
public type yields INCLUDED with "INCLUDED" in green in the log line, a
configured internal-only type yields SKIPPED with "SKIPPED" in gray, and
a null or unrecognized type yields INVALID with "INVALID" in red. -/
theorem transform_classifies_by_type (pkg : PackageJson) (bugs : String) (c : Commit)
    (h : pkg.bugs = some bugs) (hm : isMergeHeader c.header = false) :
    (∀ t, c.type = some t → t ∈ publicTypes →
      (transformCommit pkg c true).map (fun r => (r.outcome, r.log)) =
        .ok (.included,
          ["* " ++ (c.hash.toList.take 7).asString ++ " \"" ++ c.header ++ "\" " ++
            colorGreen ++ "INCLUDED" ++ colorReset])) ∧
    (∀ t, c.type = some t → t ∈ internalTypes →
      (transformCommit pkg c true).map (fun r => (r.outcome, r.log)) =
        .ok (.skipped,
          ["* " ++ (c.hash.toList.take 7).asString ++ " \"" ++ c.header ++ "\" " ++
            colorGray ++ "SKIPPED" ++ colorReset])) ∧
    (c.type = none →
      (transformCommit pkg c true).map (fun r => (r.outcome, r.log)) =
        .ok (.invalid,
          ["* " ++ (c.hash.toList.take 7).asString ++ " \"" ++ c.header ++ "\" " ++
            colorRed ++ "INVALID" ++ colorReset])) ∧
    (∀ t, c.type = some t → t ∉ publicTypes → t ∉ internalTypes →
      (transformCommit pkg c true).map (fun r => (r.outcome, r.log)) =
        .ok (.invalid,
          ["* " ++ (c.hash.toList.take 7).asString ++ " \"" ++ c.header ++ "\" " ++
            colorRed ++ "INVALID" ++ colorReset])) := by
  rw [transformCommit_eq pkg bugs c true h]
  rw [unwrapMergeCommit_of_not_merge (normalizeNotes c)
    (by rw [normalizeNotes_header]; exact hm)]
  rw [normalizeNotes_type]
  refine ⟨?_, ?_, ?_, ?_⟩
  · intro t ht hmem
    simp [ht, classify, hmem, Except.map, logLine, outcomeColor, outcomeLabel]
  · intro t ht hmem
    have hnp : t ∉ publicTypes := by
      simp only [internalTypes, List.mem_cons, List.not_mem_nil, or_false] at hmem
      rcases hmem with rfl | rfl | rfl <;> decide
    simp [ht, classify, hmem, hnp, Except.map, logLine, outcomeColor, outcomeLabel]
  · intro ht
    simp [ht, classify, Except.map, logLine, outcomeColor, outcomeLabel]
  · intro t ht hnp hni
    simp [ht, classify, hnp, hni, Except.map, logLine, outcomeColor, outcomeLabel]

/-- Claim C5: after the transform, a note titled "BREAKING CHANGE" has
title "BREAKING CHANGES", notes already titled "BREAKING CHANGES" (and
all other titles) are kept, and no note is added or dropped. -/
theorem transform_normalizes_breaking_change (pkg : PackageJson) (bugs : String)
    (c : Commit) (d : Bool) (h : pkg.bugs = some bugs) :
    (transformCommit pkg c d).map (fun r => r.commit.notes.map Note.title) =
      .ok (c.notes.map (fun n =>
        if n.title = "BREAKING CHANGE" then "BREAKING CHANGES" else n.title)) := by
  rw [transformCommit_eq pkg bugs c d h]
  simp [Except.map, linkCommit, unwrapMergeCommit_notes, normalizeNotes,
    Function.comp, normalizeTitle]

/-- Claim C7: `displayLogs = false` only raises the logger verbosity to
"error"; the mutated commit, the summary line and the classification are
exactly those of the `displayLogs = true` call. -/
theorem transform_displayLogs_only_affects_verbosity (pkg : PackageJson) (c : Commit) :
    ((transformCommit pkg c false).map (fun r => r.commit) =
      (transformCommit pkg c true).map (fun r => r.commit)) ∧
    ((transformCommit pkg c false).map (fun r => r.log) =
      (transformCommit pkg c true).map (fun r => r.log)) ∧
    ((transformCommit pkg c false).map (fun r => r.outcome) =
      (transformCommit pkg c true).map (fun r => r.outcome)) ∧
    ((transformCommit pkg c false).map (fun r => r.verbosity) =
      (transformCommit pkg c true).map (fun _ => "error")) := by
  cases hb : pkg.bugs with
  | none => simp [transformCommit, hb, Except.map]
  | some bugs => simp [transformCommit, hb, Except.map]

/-- Claim C8: the classification outcome depends only on the commit's
post-merge-unwrapping type: two transform calls on commits agreeing on
that type — whatever their notes, body, subject, footer or references,
and whatever package descriptor or `displayLogs` flag is used — yield
the same outcome. -/
theorem transform_outcome_depends_only_on_type
    (pkg pkg2 : PackageJson) (bugs bugs2 : String) (c c2 : Commit) (d d2 : Bool)
    (h : pkg.bugs = some bugs) (h2 : pkg2.bugs = some bugs2)
    (ht : (unwrapMergeCommit (normalizeNotes c)).type =
      (unwrapMergeCommit (normalizeNotes c2)).type) :
    (transformCommit pkg c d).map (fun r => r.outcome) =
      (transformCommit pkg2 c2 d2).map (fun r => r.outcome) := by
  rw [transformCommit_eq pkg bugs c d h, transformCommit_eq pkg2 bugs2 c2 d2 h2]
  simp [Except.map, ht]

/-- Claim C2: after the transform, the subject (as promoted by
merge-commit unwrapping; for a non-merge commit, the original subject)
and every note's text are exactly their token-level rewritings: every
`#<digits>` token becomes `[#<digits>](<bugsUrl>/<digits>)` once, every
`@<username>` token becomes `[@<username>](https://github.com/<username>)`
once, and every other character is kept unchanged (`renderRefToken`
maps a plain-character token to itself). -/
theorem transform_links_references (pkg : PackageJson) (bugs : String) (c : Commit)
    (h : pkg.bugs = some bugs) :
    ((transformCommit pkg c true).map (fun r => r.commit.subject) =
      .ok ((unwrapMergeCommit (normalizeNotes c)).subject.map
        (fun s => (renderRefTokens bugs.toList s.toList).asString))) ∧
    ((transformCommit pkg c true).map (fun r => r.commit.notes.map Note.text) =
      .ok (c.notes.map
        (fun n => (renderRefTokens bugs.toList n.text.toList).asString))) ∧
    (isMergeHeader c.header = false →
      (transformCommit pkg c true).map (fun r => r.commit.subject) =
        .ok (c.subject.map
          (fun s => (renderRefTokens bugs.toList s.toList).asString))) := by
  rw [transformCommit_eq pkg bugs c true h]
  refine ⟨?_, ?_, ?_⟩
  · cases hsub : (unwrapMergeCommit (normalizeNotes c)).subject with
    | none => simp [Except.map, linkCommit, hsub]
    | some sub => simp [Except.map, linkCommit, hsub, linkReferences_eq_render]
  · simp [Except.map, linkCommit, unwrapMergeCommit_notes, normalizeNotes,
      linkReferences_eq_render]
  · intro hm
    rw [unwrapMergeCommit_of_not_merge (normalizeNotes c)
      (by rw [normalizeNotes_header]; exact hm)]
    cases hsub : c.subject with
    | none => simp [Except.map, linkCommit, normalizeNotes_subject, hsub]
    | some sub =>
      simp [Except.map, linkCommit, normalizeNotes_subject, hsub,
        linkReferences_eq_render]

/-- Claim C3: for a commit whose header matches the merge-commit pattern
and whose body starts with an embedded conventional-commit line
`"<Type>: <Subject>"`, the transform promotes the mapped type and the
(reference-linked) subject to the commit's own fields, and the body
becomes the remaining lines — the duplicated first line stripped — as an
indented quoted block. -/
theorem transform_unwraps_merge_commit (pkg : PackageJson) (bugs : String)
    (c : Commit) (b t s : String) (h : pkg.bugs = some bugs)
    (hm : isMergeHeader c.header = true) (hb : c.body = some b)
    (hp : parseEmbeddedLine (firstLine b) = some (t, s)) :
    (transformCommit pkg c true).map
        (fun r => (r.commit.type, r.commit.subject, r.commit.body)) =
      .ok (some (mapType t), some (linkReferences bugs s),
        some (quoteBlock (restLines b))) := by
  rw [transformCommit_eq pkg bugs c true h]
  rw [unwrapMergeCommit_of_merge (normalizeNotes c) b t s
    (by rw [normalizeNotes_header]; exact hm)
    (by rw [normalizeNotes_body]; exact hb) hp]
  simp [Except.map, linkCommit, linkReferences_eq_render]

/-- Claim C4: the transform fails exactly when the package descriptor
lacks a `bugs` field, raising the configuration error of the test file;
in that case the error is the whole observable behaviour of the call (no
`TransformResult` — hence no mutated commit and no log line — is
produced), and with a `bugs` field present it never throws. -/
theorem transform_throws_iff_no_bugs (pkg : PackageJson) (c : Commit) (d : Bool) :
    (pkg.bugs = none →
      transformCommit pkg c d = .error
        ("The package.json for \"" ++ pkg.name ++ "\" must contain the \"bugs\" property.")) ∧
    ((transformCommit pkg c d).toOption.isSome = pkg.bugs.isSome) := by
  constructor
  · intro h
    simp [transformCommit, h, missingBugsMessage]
  · cases hb : pkg.bugs with
    | none => simp [transformCommit, hb, Except.toOption]
    | some bugs => simp [transformCommit, hb, Except.toOption]

/-- Claim C6: every successful call of the transform logs exactly one
summary line, formed of the first seven characters of the commit's hash,
the original header text (pre-mutation, merge commits included), and the
colored outcome. -/
theorem transform_logs_one_line (pkg : PackageJson) (bugs : String) (c : Commit)
    (d : Bool) (h : pkg.bugs = some bugs) :
    (transformCommit pkg c d).map (fun r => r.log) =
      .ok ["* " ++ (c.hash.toList.take 7).asString ++ " \"" ++ c.header ++ "\" " ++
        outcomeColor (classify (unwrapMergeCommit (normalizeNotes c)).type) ++
        outcomeLabel (classify (unwrapMergeCommit (normalizeNotes c)).type) ++
        colorReset] := by
  rw [transformCommit_eq pkg bugs c d h]
  simp [Except.map, logLine]

/-! ## Claim about the webpack plugin -/

/-- Claim C10: a plugin constructed without a `language` option warns and
returns from `apply` immediately — no translation service is constructed
and `serveTranslations` is never reached, so the compiler is untouched
(`ApplyOutcome.warnedMissingLanguage` carries no service and models the
early `return`) — and the constructor defaults `outputDirectory` to
"translations" when that option is absent. -/
theorem plugin_without_language_warns_and_returns (opts : WebpackPluginOptions) :
    (opts.language = none →
      applyCKEditorWebpackPlugin (mkCKEditorWebpackPlugin opts) =
        .warnedMissingLanguage) ∧
    (opts.outputDirectory = none →
      (mkCKEditorWebpackPlugin opts).outputDirectory = "translations") := by
  constructor
  · intro h
    simp [applyCKEditorWebpackPlugin, mkCKEditorWebpackPlugin, jsStrFalsy, h]
  · intro h
    simp [mkCKEditorWebpackPlugin, jsStrOrDefault, h]

/-! ## Lemmas about the GitHub URL parser -/

theorem parseName_isSome (n : List Char) :
    (parseName n).isSome =
      ((".git".toList.isSuffixOf n && validWord (n.take (n.length - 4))) ||
        validWord n) := by
  unfold parseName
  split
  · next h => rw [h]; rfl
  · next h =>
    rw [Bool.not_eq_true] at h
    rw [h]
    split
    · next h2 => rw [h2]; rfl
    · next h2 =>
      rw [Bool.not_eq_true] at h2
      rw [h2]
      rfl

theorem parseRepoPart_isSome (r : List Char) :
    (parseRepoPart r).isSome = matchesRepo r := by
  unfold parseRepoPart matchesRepo
  rcases hsp : splitOnChar '/' r with _ | ⟨u, _ | ⟨n, _ | ⟨x, t⟩⟩⟩ <;>
    simp only [hsp] <;> try rfl
  by_cases hu : validWord u = true
  · simp [hu, parseName_isSome]
  · rw [Bool.not_eq_true] at hu
    simp [hu]

theorem buildUrlInfo_isSome (so : Option String) (s : List Char) :
    (buildUrlInfo so s).isSome = matchesTail s := by
  unfold buildUrlInfo parseBranchPart matchesTail
  rcases hsp : splitOnChar '#' s with _ | ⟨r, _ | ⟨b, _ | ⟨x, t⟩⟩⟩ <;>
    simp only [hsp] <;> try rfl
  · cases hr : parseRepoPart r with
    | none => simp [← parseRepoPart_isSome, hr]
    | some v =>
      obtain ⟨u, rn, st⟩ := v
      simp [← parseRepoPart_isSome, hr]
  · by_cases hb2 : (!b.isEmpty && b.all branchChar) = true
    · simp only [hb2, if_pos rfl]
      cases hr : parseRepoPart r with
      | none => simp [← parseRepoPart_isSome, hr, hb2]
      | some v =>
        obtain ⟨u, rn, st⟩ := v
        simp [← parseRepoPart_isSome, hr, hb2]
    · rw [Bool.not_eq_true] at hb2
      simp [hb2]

theorem splitOnChar_of_not_mem (sep : Char) (cs : List Char) (h : sep ∉ cs) :
    splitOnChar sep cs = [cs] := by
  induction cs with
  | nil => rfl
  | cons c rest ih =>
    simp only [List.mem_cons, not_or] at h
    have hne : (c == sep) = false := by
      simp only [beq_eq_false_iff_ne, ne_eq]
      exact fun he => h.1 he.symm
    simp only [splitOnChar, hne, Bool.false_eq_true, if_false, ih h.2]

theorem parseName_spec (n st : List Char) (h : parseName n = some st) :
    validWord st = true ∧ (n = st ∨ n = st ++ ".git".toList) := by
  unfold parseName at h
  split at h
  · next hc =>
    rw [Bool.and_eq_true] at hc
    obtain ⟨hsuf, hval⟩ := hc
    obtain ⟨pre, hpre⟩ := List.isSuffixOf_iff_suffix.mp hsuf
    have h4 : (".git".toList).length = 4 := rfl
    have hlen : n.length - 4 = pre.length := by
      rw [← hpre, List.length_append, h4]
      omega
    have htake : n.take (n.length - 4) = pre := by
      rw [hlen, ← hpre]
      exact List.take_left pre _
    injection h with h
    rw [htake] at h hval
    subst h
    exact ⟨hval, Or.inr hpre.symm⟩
  · next =>
    split at h
    · next hv =>
      injection h with h
      subst h
      exact ⟨hv, Or.inl rfl⟩
    · exact absurd h (by simp)

theorem validWord_no_dot (cs : List Char) (h : validWord cs = true) :
    cs.all (fun ch => ch != '.') = true := by
  rw [validWord, Bool.and_eq_true] at h
  rw [List.all_eq_true]
  intro x hx
  have hw := h.2
  rw [List.all_eq_true] at hw
  have hwx := hw x hx
  simp only [bne_iff_ne, ne_eq]
  rintro rfl
  exact absurd hwx (by decide)

theorem parseRepoPart_spec (r u rawName st : List Char)
    (h : parseRepoPart r = some (u, rawName, st)) :
    validWord u = true ∧ validWord st = true ∧
      (rawName = st ∨ rawName = st ++ ".git".toList) := by
  unfold parseRepoPart at h
  rcases hsp : splitOnChar '/' r with _ | ⟨a, _ | ⟨b, _ | ⟨x, t⟩⟩⟩ <;>
    simp only [hsp] at h
  case nil => exact absurd h (by simp)
  case cons.nil => exact absurd h (by simp)
  case cons.cons.cons => exact absurd h (by simp)
  by_cases hu : validWord a = true
  · rw [if_pos hu] at h
    cases hn : parseName b with
    | none => rw [hn] at h; cases h
    | some stv =>
      rw [hn] at h
      simp only [Option.map_some', Option.some.injEq, Prod.mk.injEq] at h
      obtain ⟨ha, hb2, hst⟩ := h
      obtain ⟨hv, hor⟩ := parseName_spec b stv hn
      subst ha
      subst hb2
      subst hst
      exact ⟨hu, hv, hor⟩
  · rw [if_neg hu] at h
    cases h

theorem buildUrlInfo_eq_some (so : Option String) (s : List Char) (info : UrlInfo)
    (h : buildUrlInfo so s = some info) :
    ∃ repoPart branchOpt u rawName st,
      parseBranchPart s = some (repoPart, branchOpt) ∧
      parseRepoPart repoPart = some (u, rawName, st) ∧
      info = { server := so.getD "git@github.com:"
               repository := (u ++ '/' :: rawName).asString
               branch := (branchOpt.map List.asString).getD "master"
               user := u.asString
               name := st.asString } := by
  unfold buildUrlInfo at h
  cases hb : parseBranchPart s with
  | none => rw [hb] at h; cases h
  | some v =>
    obtain ⟨repoPart, branchOpt⟩ := v
    simp only [hb] at h
    cases hr : parseRepoPart repoPart with
    | none =>
      simp only [hr] at h
      exact absurd h (by simp)
    | some w =>
      obtain ⟨u, rawName, st⟩ := w
      simp only [hr, Option.some.injEq] at h
      exact ⟨repoPart, branchOpt, u, rawName, st, rfl, hr, h.symm⟩

theorem parseRepositoryUrl_cases (url : String) :
    parseRepositoryUrl url =
      match serverPrefixes.find? (fun p => p.toList.isPrefixOf url.toList) with
      | some p => buildUrlInfo (some p) (url.toList.drop p.length)
      | none => buildUrlInfo none url.toList := rfl

theorem matchesGitHubUrl_cases (url : String) :
    matchesGitHubUrl url =
      match serverPrefixes.find? (fun p => p.toList.isPrefixOf url.toList) with
      | some p => matchesTail (url.toList.drop p.length)
      | none => matchesTail url.toList := by
  unfold matchesGitHubUrl
  cases hf : serverPrefixes.find? (fun p => p.toList.isPrefixOf url.toList) <;>
    simp only [hf]

theorem asString_slash (u n : List Char) :
    (u ++ '/' :: n).asString = u.asString ++ "/" ++ n.asString := by
  have hl : u ++ '/' :: n = (u ++ ['/']) ++ n := by simp
  rw [hl]
  rfl

theorem asString_slash_git (u n : List Char) :
    (u ++ '/' :: (n ++ ".git".toList)).asString =
      u.asString ++ "/" ++ n.asString ++ ".git" := by
  have hl : u ++ '/' :: (n ++ ".git".toList) = ((u ++ ['/']) ++ n) ++ ".git".toList := by
    simp
  rw [hl]
  rfl

theorem buildUrlInfo_spec (so : Option String) (s : List Char) (info : UrlInfo)
    (h : buildUrlInfo so s = some info) :
    (info.server = so.getD "git@github.com:") ∧
    ('#' ∉ s → info.branch = "master") ∧
    (info.name.toList.all (fun ch => ch != '.') = true) ∧
    (info.repository = info.user ++ "/" ++ info.name ∨
      info.repository = info.user ++ "/" ++ info.name ++ ".git") := by
  obtain ⟨repoPart, branchOpt, u, rawName, st, hbranch, hrepo, heq⟩ :=
    buildUrlInfo_eq_some so s info h
  obtain ⟨hu, hst, hraw⟩ := parseRepoPart_spec repoPart u rawName st hrepo
  subst heq
  refine ⟨rfl, ?_, validWord_no_dot st hst, ?_⟩
  · intro hnh
    have hsplit := splitOnChar_of_not_mem '#' s hnh
    have hpb : parseBranchPart s = some (s, none) := by
      unfold parseBranchPart
      rw [hsplit]
    rw [hpb] at hbranch
    simp only [Option.some.injEq, Prod.mk.injEq] at hbranch
    obtain ⟨-, hbo⟩ := hbranch
    show (branchOpt.map List.asString).getD "master" = "master"
    rw [← hbo]
    rfl
  · show (u ++ '/' :: rawName).asString = u.asString ++ "/" ++ st.asString ∨
      (u ++ '/' :: rawName).asString = u.asString ++ "/" ++ st.asString ++ ".git"
    rcases hraw with hr2 | hr2 <;> rw [hr2]
    · exact Or.inl (asString_slash u st)
    · exact Or.inr (asString_slash_git u st)

/-- Claim C9: `parseRepositoryUrl` returns `null` exactly when the string
does not match the GitHub-URL pattern; on a match, `server` defaults to
"git@github.com:" when the URL has no protocol prefix, `branch` defaults
to "master" when the URL has no `#<branch>` suffix, and `name` is the
matched name with any trailing ".git" stripped (hence dot-free), while
`repository` keeps the matched `user/name` text unchanged. -/
theorem parseRepositoryUrl_spec (url : String) :
    ((parseRepositoryUrl url).isSome = matchesGitHubUrl url) ∧
    (∀ info, parseRepositoryUrl url = some info →
      ((∀ p ∈ serverPrefixes, p.toList.isPrefixOf url.toList = false) →
        info.server = "git@github.com:") ∧
      ('#' ∉ url.toList → info.branch = "master") ∧
      (info.name.toList.all (fun ch => ch != '.') = true) ∧
      (info.repository = info.user ++ "/" ++ info.name ∨
        info.repository = info.user ++ "/" ++ info.name ++ ".git")) := by
  constructor
  · rw [parseRepositoryUrl_cases, matchesGitHubUrl_cases]
    cases hf : serverPrefixes.find? (fun p => p.toList.isPrefixOf url.toList) with
    | none => exact buildUrlInfo_isSome none url.toList
    | some p => exact buildUrlInfo_isSome (some p) (url.toList.drop p.length)
  · intro info hinfo
    rw [parseRepositoryUrl_cases] at hinfo
    cases hf : serverPrefixes.find? (fun p => p.toList.isPrefixOf url.toList) with
    | none =>
      rw [hf] at hinfo
      obtain ⟨hs, hb, hn, hr⟩ := buildUrlInfo_spec none url.toList info hinfo
      exact ⟨fun _ => hs, hb, hn, hr⟩
    | some p =>
      rw [hf] at hinfo
      obtain ⟨hs, hb, hn, hr⟩ :=
        buildUrlInfo_spec (some p) (url.toList.drop p.length) info hinfo
      refine ⟨?_, ?_, hn, hr⟩
      · intro hall
        have hp := List.find?_some hf
        rw [hall p (List.mem_of_find?_eq_some hf)] at hp
        cases hp
      · intro hnh
        exact hb (fun hmem => hnh (List.mem_of_mem_drop hmem))

/-! ## Witnesses: the claims instantiated at the test file's fixtures -/

deriving instance DecidableEq for Except

theorem transform_classifies_by_type_witness :
    pkgFixture.bugs = some "https://github.com/ckeditor/ckeditor5-dev/issues" ∧
    isMergeHeader fixCommit.header = false ∧
    (transformCommit pkgFixture fixCommit true).map (fun r => (r.outcome, r.log)) =
      .ok (.included, ["* 684997d \"Fix: Simple fix.\" \x1b[32mINCLUDED\x1b[0m"]) := by
  refine ⟨rfl, by decide, ?_⟩
  have h := (transform_classifies_by_type pkgFixture
      "https://github.com/ckeditor/ckeditor5-dev/issues" fixCommit rfl (by decide)).1
      "Fix" rfl (by decide)
  rw [h]
  decide

theorem transform_links_references_witness :
    pkgFixture.bugs = some "https://github.com/ckeditor/ckeditor5-dev/issues" ∧
    isMergeHeader issueCommit.header = false ∧
    (transformCommit pkgFixture issueCommit true).map (fun r => r.commit.subject) =
      .ok (some "Simple fix. Closes [#2](https://github.com/ckeditor/ckeditor5-dev/issues/2)") ∧
    (transformCommit pkgFixture issueCommit true).map
        (fun r => r.commit.notes.map Note.text) =
      .ok ["Some issue [#1](https://github.com/ckeditor/ckeditor5-dev/issues/1)."] := by
  refine ⟨rfl, by decide, ?_, ?_⟩
  · have h := (transform_links_references pkgFixture
        "https://github.com/ckeditor/ckeditor5-dev/issues" issueCommit rfl).2.2 (by decide)
    rw [h]
    decide
  · have h := (transform_links_references pkgFixture
        "https://github.com/ckeditor/ckeditor5-dev/issues" issueCommit rfl).2.1
    rw [h]
    decide

set_option maxRecDepth 10000 in
theorem transform_unwraps_merge_commit_witness :
    pkgFixture.bugs = some "https://github.com/ckeditor/ckeditor5-dev/issues" ∧
    isMergeHeader mergeCommit.header = true ∧
    mergeCommit.body = some mergeBody ∧
    parseEmbeddedLine (firstLine mergeBody) = some ("Feature",
      "Introduced a brand new release tools with a new set of requirements. See #64.") ∧
    (transformCommit pkgFixture mergeCommit true).map
        (fun r => (r.commit.type, r.commit.subject, r.commit.body)) =
      .ok (some "Features",
        some ("Introduced a brand new release tools with a new set of requirements. " ++
          "See [#64](https://github.com/ckeditor/ckeditor5-dev/issues/64)."),
        some ("  * Release task - rebuilt module for collecting dependencies to release.\n" ++
          "  * Release task - a new version to release will be read from CHANGELOG file.\n" ++
          "  * Changelog task - will not break if changelog does not exist.\n" ++
          "  * Used `semver` package for bumping the version (instead of a custom module).")) := by
  refine ⟨rfl, by decide, rfl, by decide, ?_⟩
  have h := transform_unwraps_merge_commit pkgFixture
      "https://github.com/ckeditor/ckeditor5-dev/issues" mergeCommit mergeBody
      "Feature" "Introduced a brand new release tools with a new set of requirements. See #64."
      rfl (by decide) rfl (by decide)
  rw [h]
  decide

theorem transform_throws_iff_no_bugs_witness :
    pkgNoBugs.bugs = none ∧
    transformCommit pkgNoBugs fixCommit true =
      .error "The package.json for \"foo\" must contain the \"bugs\" property." ∧
    (transformCommit pkgNoBugs fixCommit true).toOption.isSome = pkgNoBugs.bugs.isSome := by
  refine ⟨rfl, ?_, (transform_throws_iff_no_bugs pkgNoBugs fixCommit true).2⟩
  have h := (transform_throws_iff_no_bugs pkgNoBugs fixCommit true).1 rfl
  rw [h]
  decide

theorem transform_normalizes_breaking_change_witness :
    pkgFixture.bugs = some "https://github.com/ckeditor/ckeditor5-dev/issues" ∧
    (transformCommit pkgFixture fixCommit true).map
        (fun r => r.commit.notes.map Note.title) =
      .ok ["BREAKING CHANGES", "BREAKING CHANGES"] := by
  refine ⟨rfl, ?_⟩
  have h := transform_normalizes_breaking_change pkgFixture
      "https://github.com/ckeditor/ckeditor5-dev/issues" fixCommit true rfl
  rw [h]
  decide

set_option maxRecDepth 10000 in
theorem transform_logs_one_line_witness :
    pkgFixture.bugs = some "https://github.com/ckeditor/ckeditor5-dev/issues" ∧
    (transformCommit pkgFixture mergeCommit true).map (fun r => r.log) =
      .ok ["* dea3501 \"Merge pull request #75 from ckeditor/t/64\" \x1b[32mINCLUDED\x1b[0m"] := by
  refine ⟨rfl, ?_⟩
  have h := transform_logs_one_line pkgFixture
      "https://github.com/ckeditor/ckeditor5-dev/issues" mergeCommit true rfl
  rw [h]
  decide

theorem transform_outcome_depends_only_on_type_witness :
    pkgFixture.bugs = some "https://github.com/ckeditor/ckeditor5-dev/issues" ∧
    (unwrapMergeCommit (normalizeNotes fixCommit)).type =
      (unwrapMergeCommit (normalizeNotes issueCommit)).type ∧
    (transformCommit pkgFixture fixCommit true).map (fun r => r.outcome) =
      (transformCommit pkgFixture issueCommit false).map (fun r => r.outcome) :=
  ⟨rfl, by decide,
    transform_outcome_depends_only_on_type pkgFixture pkgFixture
      "https://github.com/ckeditor/ckeditor5-dev/issues"
      "https://github.com/ckeditor/ckeditor5-dev/issues" fixCommit issueCommit
      true false rfl rfl (by decide)⟩

/-- A parsed URL record used to instantiate the `parseRepositoryUrl`
claim. -/
def urlInfoFixture : UrlInfo :=
  { server := "git@github.com:", repository := "ckeditor/ckeditor5-dev.git",
    branch := "master", user := "ckeditor", name := "ckeditor5-dev" }

theorem parseRepositoryUrl_spec_witness :
    parseRepositoryUrl "ckeditor/ckeditor5-dev.git" = some urlInfoFixture ∧
    (parseRepositoryUrl "ckeditor/ckeditor5-dev.git").isSome =
      matchesGitHubUrl "ckeditor/ckeditor5-dev.git" ∧
    urlInfoFixture.server = "git@github.com:" ∧
    urlInfoFixture.branch = "master" ∧
    urlInfoFixture.name.toList.all (fun ch => ch != '.') = true ∧
    (urlInfoFixture.repository = urlInfoFixture.user ++ "/" ++ urlInfoFixture.name ∨
      urlInfoFixture.repository =
        urlInfoFixture.user ++ "/" ++ urlInfoFixture.name ++ ".git") := by
  have h := parseRepositoryUrl_spec "ckeditor/ckeditor5-dev.git"
  have h2 := h.2 urlInfoFixture (by decide)
  exact ⟨by decide, h.1, h2.1 (by decide), h2.2.1 (by decide), h2.2.2.1, h2.2.2.2⟩

/-- Options with no `language` and no `outputDirectory`. -/
def optsNoLanguage : WebpackPluginOptions :=
  { language := none, additionalLanguages := none, outputDirectory := none,
    strict := none, verbose := none }

theorem plugin_without_language_warns_and_returns_witness :
    optsNoLanguage.language = none ∧
    optsNoLanguage.outputDirectory = none ∧
    applyCKEditorWebpackPlugin (mkCKEditorWebpackPlugin optsNoLanguage) =
      .warnedMissingLanguage ∧
    (mkCKEditorWebpackPlugin optsNoLanguage).outputDirectory = "translations" := by
  obtain ⟨h1, h2⟩ := plugin_without_language_warns_and_returns optsNoLanguage
  exact ⟨rfl, rfl, h1 rfl, h2 rfl⟩
